import Mathlib

/-!
Verification of the Drive→WordPress gallery sync core (`src/index.js`).

The JavaScript source is shallowly embedded: pure string-building functions
become Lean functions on `String`/`List Char`; the stateful collaborators
(Drive, WordPress REST, disk cache) become explicit parameters and state
threading; fallible calls become `Except`.  JS machine numbers are modelled
as `Nat`/`Int` (counts, ids and timestamps stay far below 2^53, where JS
numbers are exact).  JS `toLowerCase` is modelled on ASCII (`Char.toLower`);
all inputs considered here are ASCII.
-/

/-! ## Small string utilities (index.js: stripExt, trim/`\s`, toLowerCase) -/

/-- Whitespace class used by JS `\s` and `String.prototype.trim` (ASCII part
plus NBSP and BOM; the remaining exotic Unicode spaces are not used by any
input of this development). -/
def isJsWs (c : Char) : Bool :=
  c = ' ' || c = '\t' || c = '\n' || c = '\r' || c = '\x0b' || c = '\x0c' ||
  c = ' ' || c = '﻿'

/-- JS `trim()` on a character list. -/
def jsTrimList (cs : List Char) : List Char :=
  ((cs.dropWhile isJsWs).reverse.dropWhile isJsWs).reverse

/-- JS `trim()`. -/
def jsTrim (s : String) : String :=
  String.mk (jsTrimList s.data)

/-- JS `toLowerCase()` (ASCII). -/
def jsToLower (s : String) : String :=
  String.mk (s.data.map Char.toLower)

/-- `stripExt` from index.js: `name.replace(/\.[^.]+$/, '')` — drop a final
dot followed by one or more non-dot characters. -/
def stripExt (name : String) : String :=
  let rev := name.data.reverse
  match rev.dropWhile (fun c => !(c = '.')) with
  | '.' :: rest =>
    if rev.takeWhile (fun c => !(c = '.')) = [] then name else String.mk rest.reverse
  | _ => name

example : stripExt "photo.jpg" = "photo" := by decide
example : stripExt "photo.backup.jpg" = "photo.backup" := by decide
example : stripExt "photo" = "photo" := by decide
example : stripExt ".gitignore" = "" := by decide
example : stripExt "photo." = "photo." := by decide

/-! ## Identity cache (index.js: loadCache / saveCache / isCacheValid,
and the per-session `mediaCache` inside `createWp`) -/

/-- A destination-side media identity as stored in the cache:
`{ id, url }`. -/
structure CacheEntry where
  id : Nat
  url : String
deriving DecidableEq

/-- The cache's media map.  A JS object with string keys is modelled as an
association list with unique keys; `setKey` mirrors property assignment
(update in place, else append), `lookupKey` mirrors property read. -/
abbrev MediaMap := List (String × CacheEntry)

def lookupKey : MediaMap → String → Option CacheEntry
  | [], _ => none
  | (k, v) :: rest, key => if k = key then some v else lookupKey rest key

def setKey : MediaMap → String → CacheEntry → MediaMap
  | [], key, v => [(key, v)]
  | (k, w) :: rest, key, v =>
    if k = key then (key, v) :: rest else (k, w) :: setKey rest key v

/-- The persisted cache file `.wp-media-cache.json`:
`{ wpBaseUrl, lastUpdated, media }`.  `lastUpdated` and `media` are `Option`
because a hand-edited or corrupt file may lack them (the code guards with
`cache.lastUpdated || 0` and `!cache.media`). -/
structure DiskCache where
  wpBaseUrl : String
  lastUpdated : Option Int
  media : Option MediaMap
deriving DecidableEq

def CACHE_MAX_AGE_MS : Int := 24 * 60 * 60 * 1000

/-- `isCacheValid(cache, wpBaseUrl)` from index.js.  `Date.now()` is passed
in as `now`. -/
def isCacheValid (cache : Option DiskCache) (wpBaseUrl : String) (now : Int) : Bool :=
  match cache with
  | none => false
  | some c =>
    match c.media with
    | none => false
    | some _ =>
      if c.wpBaseUrl = wpBaseUrl then
        decide (now - c.lastUpdated.getD 0 < CACHE_MAX_AGE_MS)
      else false

/-- A media object as returned to callers of the resolver: cache hits carry
`{ id, source_url }`; search hits additionally carry the large-size URL used
by the `media_details` fallback (empty string = absent). -/
structure FoundMedia where
  id : Nat
  source_url : String
  largeUrl : String
deriving DecidableEq

/-- `findMediaInCache(filename)` from index.js: probe the lower-cased full
name, then the lower-cased extension-stripped name.  `mediaCache = none`
models the JS `null` (cache not loaded). -/
def findMediaInCache (mediaCache : Option MediaMap) (filename : String) : Option FoundMedia :=
  match mediaCache with
  | none => none
  | some m =>
    let nameLc := jsToLower filename
    let nameNoExtLc := jsToLower (stripExt filename)
    match lookupKey m nameLc with
    | some e => some ⟨e.id, e.url, ""⟩
    | none =>
      match lookupKey m nameNoExtLc with
      | some e => some ⟨e.id, e.url, ""⟩
      | none => none

/-- In-memory half of `addToCache(filename, id, url)`: write both the
full-name and extension-stripped keys (creating the map when it was null). -/
def addToCacheMem (mediaCache : Option MediaMap) (filename : String)
    (id : Nat) (url : String) : MediaMap :=
  let m := mediaCache.getD []
  setKey (setKey m (jsToLower filename) ⟨id, url⟩) (jsToLower (stripExt filename)) ⟨id, url⟩

/-- Disk half of `addToCache`: re-read the persisted cache (read-before-write),
default it when absent, write both keys into its `media` map, refresh
`lastUpdated`, and save.  A loaded cache without a `media` field would crash
the JS (`diskCache.media[k] = …` on `undefined`); that malformed case is
modelled as an empty map and is not relied on by any theorem. -/
def addToCacheDisk (diskCache : Option DiskCache) (baseUrl : String) (now : Int)
    (filename : String) (id : Nat) (url : String) : DiskCache :=
  let d := diskCache.getD ⟨baseUrl, some now, some []⟩
  let m := d.media.getD []
  { wpBaseUrl := d.wpBaseUrl
    lastUpdated := some now
    media := some (setKey (setKey m (jsToLower filename) ⟨id, url⟩)
      (jsToLower (stripExt filename)) ⟨id, url⟩) }

/-! ### Association-map lemmas -/

theorem lookupKey_setKey_self (m : MediaMap) (k : String) (v : CacheEntry) :
    lookupKey (setKey m k v) k = some v := by
  induction m with
  | nil => simp [setKey, lookupKey]
  | cons hd tl ih =>
    obtain ⟨k', v'⟩ := hd
    by_cases h : k' = k
    · simp [setKey, lookupKey, h]
    · simp [setKey, lookupKey, h, ih]

theorem lookupKey_setKey_other (m : MediaMap) (k k' : String) (v : CacheEntry)
    (h : k' ≠ k) : lookupKey (setKey m k v) k' = lookupKey m k' := by
  have h' : ¬ k = k' := fun hh => h hh.symm
  induction m with
  | nil => simp [setKey, lookupKey, h']
  | cons hd tl ih =>
    obtain ⟨k₀, v₀⟩ := hd
    by_cases h₀ : k₀ = k
    · have h₀' : ¬ k₀ = k' := by rw [h₀]; exact h'
      simp [setKey, lookupKey, h₀, h', h₀']
    · by_cases h₁ : k₀ = k'
      · simp [setKey, lookupKey, h₀, h₁, h]
      · simp [setKey, lookupKey, h₀, h₁, ih]

/-- C8: `isCacheValid` returns true iff the cache is present with its media
map, its stored scope (base URL) equals the current one, and its age is
strictly below 24 hours; concretely a 25-hour-old cache is invalid, a
23-hour-old one with matching scope is valid, an exactly-24-hour-old one is
invalid, and a scope mismatch is invalid regardless of age. -/
theorem cache_validity_spec :
    (∀ (c : Option DiskCache) (scope : String) (now : Int),
      isCacheValid c scope now = true ↔
        ∃ d, c = some d ∧ d.media.isSome = true ∧ d.wpBaseUrl = scope ∧
          now - d.lastUpdated.getD 0 < CACHE_MAX_AGE_MS)
    ∧ (∀ now : Int,
        isCacheValid (some ⟨"https://wp.example", some (now - 25 * 60 * 60 * 1000), some []⟩)
          "https://wp.example" now = false)
    ∧ (∀ now : Int,
        isCacheValid (some ⟨"https://wp.example", some (now - 23 * 60 * 60 * 1000), some []⟩)
          "https://wp.example" now = true)
    ∧ (∀ now : Int,
        isCacheValid (some ⟨"https://wp.example", some (now - 24 * 60 * 60 * 1000), some []⟩)
          "https://wp.example" now = false)
    ∧ (∀ now : Int,
        isCacheValid (some ⟨"https://a.example", some now, some []⟩)
          "https://b.example" now = false) := by
  refine ⟨?_, ?_, ?_, ?_, ?_⟩
  · intro c scope now
    constructor
    · intro h
      match c with
      | none => simp [isCacheValid] at h
      | some d =>
        refine ⟨d, rfl, ?_, ?_, ?_⟩
        · match hm : d.media with
          | none => rw [isCacheValid.eq_def] at h; simp [hm] at h
          | some _ => simp
        · match hm : d.media with
          | none => rw [isCacheValid.eq_def] at h; simp [hm] at h
          | some _ =>
            rw [isCacheValid.eq_def] at h
            simp only [hm] at h
            by_contra hb
            simp [hb] at h
        · match hm : d.media with
          | none => rw [isCacheValid.eq_def] at h; simp [hm] at h
          | some _ =>
            rw [isCacheValid.eq_def] at h
            simp only [hm] at h
            by_cases hb : d.wpBaseUrl = scope
            · simpa [hb] using h
            · simp [hb] at h
    · rintro ⟨d, rfl, hm, hb, hage⟩
      match hmm : d.media with
      | none => rw [hmm] at hm; simp at hm
      | some _ =>
        rw [isCacheValid.eq_def]
        simp [hmm, hb, hage]
  · intro now
    simp only [isCacheValid, Option.getD, CACHE_MAX_AGE_MS]
    norm_num
  · intro now
    simp only [isCacheValid, Option.getD, CACHE_MAX_AGE_MS]
    norm_num
  · intro now
    simp only [isCacheValid, Option.getD, CACHE_MAX_AGE_MS]
    norm_num
  · intro now
    simp [isCacheValid]

/-- C9: after `addToCache(F, id, url)`, both `findMediaInCache(F)` and
`findMediaInCache(stripExt F)` return the new identity, and the persisted
cache gains both lower-cased keys while every other key keeps the value it
had in the latest on-disk state. -/
theorem cache_put_key_symmetry :
    ∀ (mc : Option MediaMap) (disk : Option DiskCache) (baseUrl : String) (now : Int)
      (filename : String) (id : Nat) (url : String),
      findMediaInCache (some (addToCacheMem mc filename id url)) filename
          = some ⟨id, url, ""⟩
      ∧ findMediaInCache (some (addToCacheMem mc filename id url)) (stripExt filename)
          = some ⟨id, url, ""⟩
      ∧ lookupKey ((addToCacheDisk disk baseUrl now filename id url).media.getD [])
          (jsToLower filename) = some ⟨id, url⟩
      ∧ lookupKey ((addToCacheDisk disk baseUrl now filename id url).media.getD [])
          (jsToLower (stripExt filename)) = some ⟨id, url⟩
      ∧ ∀ k, k ≠ jsToLower filename → k ≠ jsToLower (stripExt filename) →
          lookupKey ((addToCacheDisk disk baseUrl now filename id url).media.getD []) k
            = lookupKey ((disk.getD ⟨baseUrl, some now, some []⟩).media.getD []) k := by
  intro mc disk baseUrl now filename id url
  have hfull : ∀ (m : MediaMap),
      lookupKey (setKey (setKey m (jsToLower filename) ⟨id, url⟩)
        (jsToLower (stripExt filename)) ⟨id, url⟩) (jsToLower filename) = some ⟨id, url⟩ := by
    intro m
    by_cases h : jsToLower (stripExt filename) = jsToLower filename
    · rw [h, lookupKey_setKey_self]
    · rw [lookupKey_setKey_other _ _ _ _ (fun hh => h hh.symm), lookupKey_setKey_self]
  have hstrip : ∀ (m : MediaMap),
      lookupKey (setKey (setKey m (jsToLower filename) ⟨id, url⟩)
        (jsToLower (stripExt filename)) ⟨id, url⟩) (jsToLower (stripExt filename))
        = some ⟨id, url⟩ := by
    intro m
    rw [lookupKey_setKey_self]
  refine ⟨?_, ?_, ?_, ?_, ?_⟩
  · simp only [findMediaInCache, addToCacheMem, hfull]
  · simp only [findMediaInCache, addToCacheMem, hstrip]
  · simp only [addToCacheDisk, Option.getD, hfull]
  · simp only [addToCacheDisk, Option.getD, hstrip]
  · intro k hk1 hk2
    simp only [addToCacheDisk, Option.getD]
    rw [lookupKey_setKey_other _ _ _ _ hk2, lookupKey_setKey_other _ _ _ _ hk1]

/-- Concrete instantiation of `cache_put_key_symmetry`: the preservation
conjunct is discharged at key `"other.png"`, and the symmetric lookups at
`"Photo.JPG"`/`"Photo"`. -/
theorem cache_put_key_symmetry_witness :
    findMediaInCache (some (addToCacheMem (some [("other.png", ⟨9, "o"⟩)]) "Photo.JPG" 5 "u"))
        "Photo.JPG" = some ⟨5, "u", ""⟩
    ∧ lookupKey ((addToCacheDisk (some ⟨"b", some 0, some [("other.png", ⟨9, "o"⟩)]⟩)
        "b" 7 "Photo.JPG" 5 "u").media.getD []) "other.png" = some ⟨9, "o"⟩ := by
  have h := cache_put_key_symmetry (some [("other.png", ⟨9, "o"⟩)])
    (some ⟨"b", some 0, some [("other.png", ⟨9, "o"⟩)]⟩) "b" 7 "Photo.JPG" 5 "u"
  refine ⟨h.1, ?_⟩
  have hp := h.2.2.2.2 "other.png" (by decide) (by decide)
  rw [hp]
  decide

/-! ## Identity resolver (index.js: basenameFromUrl, findMediaByFilename) -/

/-- Characters after the first `>`; `none` when the tag never closes.
Helper for the `/<[^>]*>/g` strip in `findMediaByFilename`. -/
def afterTagClose : List Char → Option (List Char)
  | [] => none
  | c :: rest => if c = '>' then some rest else afterTagClose rest

theorem afterTagClose_length_lt :
    ∀ (cs r : List Char), afterTagClose cs = some r → r.length < cs.length := by
  intro cs
  induction cs with
  | nil => intro r h; simp [afterTagClose] at h
  | cons c rest ih =>
    intro r h
    simp only [afterTagClose] at h
    by_cases hc : c = '>'
    · simp only [hc, if_pos rfl] at h
      cases h
      simp
    · simp only [if_neg hc] at h
      exact Nat.lt_trans (ih r h) (by simp)

/-- JS `titleRendered.replace(/<[^>]*>/g, '')`: delete every `<…>` tag.  A
`<` that is never closed matches nothing and is kept (together with the rest
of the string, in which no further tag can close).  Each step strictly
shrinks the list, so `cs.length` steps of fuel always suffice
(`afterTagClose_length_lt`); the fuel-exhausted branch is unreachable. -/
def stripTagsFuel : Nat → List Char → List Char
  | 0, cs => cs
  | _ + 1, [] => []
  | fuel + 1, c :: rest =>
    if c = '<' then
      match afterTagClose rest with
      | some r => stripTagsFuel fuel r
      | none => c :: rest
    else c :: stripTagsFuel fuel rest

def stripTags (cs : List Char) : List Char :=
  stripTagsFuel cs.length cs

example : stripTags "a<b>c".data = "ac".data := by decide
example : stripTags "<em>Photo</em>".data = "Photo".data := by decide

/-- `'pre' is a prefix of 'cs'` as a Bool, structurally. -/
def startsWithChars : List Char → List Char → Bool
  | [], _ => true
  | _ :: _, [] => false
  | p :: ps, c :: cs => c = p && startsWithChars ps cs

/-- `basenameFromUrl(u)` from index.js.  The WHATWG `new URL(u).pathname`
branch is modelled for ordinary http/https URLs: the path is what follows
the host, cut at the first `?` or `#`; otherwise (parse failure) the JS
falls back to the last `/`-separated segment of the raw string, which is
also the last path segment in the URL branch — so both branches reduce to:
drop any query/fragment, then take the substring after the last `/`
(empty when the string ends in `/`). -/
def basenameFromUrl (u : String) : String :=
  let hasScheme := startsWithChars "http://".data u.data ||
    startsWithChars "https://".data u.data
  let cut :=
    if hasScheme then u.data.takeWhile (fun c => !(c = '?' || c = '#'))
    else u.data
  String.mk (cut.reverse.takeWhile (fun c => !(c = '/')) ).reverse

example : basenameFromUrl "https://wp.example/up/2024/photo.jpg" = "photo.jpg" := by decide
example : basenameFromUrl "https://wp.example/up/photo.jpg?x=1" = "photo.jpg" := by decide
example : basenameFromUrl "not a url/file.png" = "file.png" := by decide

/-- A WordPress media item as returned by the `/wp/v2/media` search:
the fields `findMediaByFilename` reads (`largeUrl` models
`media_details.sizes.large.source_url`, empty = absent). -/
structure WpItem where
  id : Nat
  source_url : String
  titleRendered : String
  largeUrl : String
deriving DecidableEq

/-- The normalised display title:
`title.rendered.replace(/<[^>]*>/g, '').trim().toLowerCase()`. -/
def wpTitleText (titleRendered : String) : String :=
  jsToLower (jsTrim (String.mk (stripTags titleRendered.data)))

/-- An HTTP failure as seen through axios: `status = none` models a
network-level error with no response at all. -/
structure HttpFailure where
  status : Option Int
deriving DecidableEq

def authSearchMsg : String :=
  "WordPress authentication failed (401) while searching media. Check your WP_USERNAME and WP_APP_PASSWORD."

/-- Result of one resolver call: the outcome, whether the remote search ran,
and the in-memory/disk cache states after the call. -/
structure ResolveOut where
  result : Except String (Option FoundMedia)
  searched : Bool
  mem : Option MediaMap
  disk : Option DiskCache

/-- The candidate loop of `findMediaByFilename`: first item whose derived
basename equals the lower-cased filename, or whose normalised title equals
the lower-cased extension-stripped name, wins and is registered in the
cache. -/
def findItemLoop (mem : Option MediaMap) (disk : Option DiskCache) (baseUrl : String)
    (now : Int) (filename nameLc nameNoExtLc : String) : List WpItem → ResolveOut
  | [] => ⟨.ok none, true, mem, disk⟩
  | it :: rest =>
    if jsToLower (basenameFromUrl it.source_url) = nameLc then
      ⟨.ok (some ⟨it.id, it.source_url, it.largeUrl⟩), true,
       some (addToCacheMem mem filename it.id it.source_url),
       some (addToCacheDisk disk baseUrl now filename it.id it.source_url)⟩
    else if wpTitleText it.titleRendered = nameNoExtLc then
      ⟨.ok (some ⟨it.id, it.source_url, it.largeUrl⟩), true,
       some (addToCacheMem mem filename it.id it.source_url),
       some (addToCacheDisk disk baseUrl now filename it.id it.source_url)⟩
    else findItemLoop mem disk baseUrl now filename nameLc nameNoExtLc rest

/-- `findMediaByFilename(filename)` from index.js: cache probe first
(returning with no network call on a hit), then the remote search with a
401 escalated to a fatal error and any other search failure degraded to an
empty candidate list. -/
def findMediaByFilenameModel (mem : Option MediaMap) (disk : Option DiskCache)
    (baseUrl : String) (now : Int) (searchResult : Except HttpFailure (List WpItem))
    (filename : String) : ResolveOut :=
  match findMediaInCache mem filename with
  | some cached => ⟨.ok (some cached), false, mem, disk⟩
  | none =>
    let nameLc := jsToLower filename
    let nameNoExtLc := jsToLower (stripExt filename)
    match searchResult with
    | .error f =>
      if f.status = some 401 then ⟨.error authSearchMsg, true, mem, disk⟩
      else findItemLoop mem disk baseUrl now filename nameLc nameNoExtLc []
    | .ok items => findItemLoop mem disk baseUrl now filename nameLc nameNoExtLc items

/-- C7: when the cache has an entry for the filename (full or
extension-stripped lower-cased key), the resolver returns that cached
identity at once: the remote search is not invoked and neither cache side
changes. -/
theorem resolver_cache_hit_no_search :
    ∀ (mem : Option MediaMap) (disk : Option DiskCache) (baseUrl : String) (now : Int)
      (sr : Except HttpFailure (List WpItem)) (filename : String) (x : FoundMedia),
      findMediaInCache mem filename = some x →
      findMediaByFilenameModel mem disk baseUrl now sr filename
        = ⟨.ok (some x), false, mem, disk⟩ := by
  intro mem disk baseUrl now sr filename x h
  unfold findMediaByFilenameModel
  rw [h]

/-- Concrete instantiation of `resolver_cache_hit_no_search`: a cache entry
for `photo.jpg` short-circuits even a search oracle that would have
answered. -/
theorem resolver_cache_hit_no_search_witness :
    findMediaByFilenameModel (some [("photo.jpg", ⟨3, "https://wp.example/photo.jpg"⟩)])
        none "https://wp.example" 0
        (.ok [⟨8, "https://wp.example/other.jpg", "other", ""⟩]) "photo.jpg"
      = ⟨.ok (some ⟨3, "https://wp.example/photo.jpg", ""⟩), false,
         some [("photo.jpg", ⟨3, "https://wp.example/photo.jpg"⟩)], none⟩ :=
  resolver_cache_hit_no_search _ _ _ _ _ _ _ (by decide)

/-! ## Content renderer (index.js: makeMasonryStyles, makeGalleryBlock,
makeAnchorId, makeHeadingBlock, makeSpacerBlock, makeTocBlock,
makeSectionContent, makePageContent) -/

/-- An attachment placed in a gallery: `{ id, url, alt }`. -/
structure Attachment where
  id : Nat
  url : String
  alt : String
deriving DecidableEq

/-- A section: one Drive sub-folder's name and its resolved attachments. -/
structure GallerySection where
  name : String
  attachments : List Attachment
deriving DecidableEq

def isLowerAlnum (c : Char) : Bool :=
  ('a' ≤ c && c ≤ 'z') || ('0' ≤ c && c ≤ '9')

/-- `/[^a-z0-9]+/g → '-'`: each maximal run of non-alphanumerics becomes a
single hyphen (the flag records whether we are inside such a run). -/
def collapseNonAlnum : Bool → List Char → List Char
  | _, [] => []
  | inRun, c :: cs =>
    if isLowerAlnum c then c :: collapseNonAlnum false cs
    else if inRun then collapseNonAlnum true cs
    else '-' :: collapseNonAlnum true cs

/-- `/^-|-$/g → ''`: remove one leading and one trailing hyphen. -/
def stripEdgeHyphens (cs : List Char) : List Char :=
  let cs1 := match cs with
    | '-' :: rest => rest
    | _ => cs
  match cs1.reverse with
  | '-' :: rest => rest.reverse
  | _ => cs1

/-- `makeAnchorId(text)` from index.js: lower-case, collapse non-alphanumeric
runs to `-`, trim edge hyphens. -/
def makeAnchorId (text : String) : String :=
  String.mk (stripEdgeHyphens (collapseNonAlnum false (text.data.map Char.toLower)))

example : makeAnchorId "Hello World" = "hello-world" := by decide
example : makeAnchorId "Photo & Video!" = "photo-video" := by decide
example : makeAnchorId "--test--" = "test" := by decide

/-- `makeMasonryStyles()` from index.js (braces written `\x7b`/`\x7d`). -/
def makeMasonryStyles : String :=
  "<!-- wp:html -->\n<style>\n.masonry-gallery.wp-block-gallery \x7b\n    display: block !important;\n    column-count: 3;\n    column-gap: 10px;\n\x7d\n.masonry-gallery.wp-block-gallery .wp-block-image \x7b\n    break-inside: avoid;\n    margin-bottom: 10px !important;\n    width: 100% !important;\n\x7d\n.masonry-gallery.wp-block-gallery .wp-block-image img \x7b\n    width: 100%;\n    height: auto !important;\n    object-fit: contain;\n    border-radius: 4px;\n\x7d\n.masonry-gallery.wp-block-gallery .wp-block-image figure \x7b\n    margin: 0;\n    height: auto !important;\n\x7d\n@media (max-width: 900px) \x7b\n    .masonry-gallery.wp-block-gallery \x7b column-count: 2; \x7d\n\x7d\n@media (max-width: 500px) \x7b\n    .masonry-gallery.wp-block-gallery \x7b column-count: 1; \x7d\n\x7d\n</style>\n<!-- /wp:html -->"

/-- One `wp:image` block of `makeGalleryBlock`. -/
def makeImageBlock (groupId : String) (a : Attachment) : String :=
  "<!-- wp:image \x7b\"id\":" ++ toString a.id ++
  ",\"sizeSlug\":\"large\",\"linkDestination\":\"media\",\"lightbox\":\x7b\"enabled\":true,\"group\":\"" ++
  groupId ++ "\"\x7d\x7d -->\n<figure class=\"wp-block-image size-large\"><a href=\"" ++
  a.url ++ "\"><img src=\"" ++ a.url ++ "\" alt=\"" ++ a.alt ++
  "\" class=\"wp-image-" ++ toString a.id ++ "\"/></a></figure>\n<!-- /wp:image -->"

/-- `makeGalleryBlock(attachments, groupId)` from index.js. -/
def makeGalleryBlock (attachments : List Attachment) (groupId : String) : String :=
  let imageBlocks := String.intercalate "\n" (attachments.map (makeImageBlock groupId))
  "<!-- wp:gallery \x7b\"linkTo\":\"media\",\"lightbox\":\x7b\"enabled\":true,\"group\":\"" ++
  groupId ++ "\"\x7d,\"className\":\"masonry-gallery\"\x7d -->\n<figure class=\"wp-block-gallery has-nested-images columns-default masonry-gallery\">\n" ++
  imageBlocks ++ "\n</figure>\n<!-- /wp:gallery -->"

/-- `makeHeadingBlock(text, level, anchor)` from index.js; the JS `null`
default and an empty anchor are both falsy, so both are modelled by `""`. -/
def makeHeadingBlock (text : String) (level : Nat) (anchor : String) : String :=
  let anchorAttr := if anchor = "" then "" else ",\"anchor\":\"" ++ anchor ++ "\""
  let idAttr := if anchor = "" then "" else " id=\"" ++ anchor ++ "\""
  "<!-- wp:heading \x7b\"level\":" ++ toString level ++ anchorAttr ++ "\x7d -->\n<h" ++
  toString level ++ idAttr ++ " class=\"wp-block-heading\">" ++ text ++ "</h" ++
  toString level ++ ">\n<!-- /wp:heading -->"

/-- `makeSpacerBlock(height)` from index.js. -/
def makeSpacerBlock (height : Nat) : String :=
  "<!-- wp:spacer \x7b\"height\":\"" ++ toString height ++ "px\"\x7d -->\n<div style=\"height:" ++
  toString height ++ "px\" aria-hidden=\"true\" class=\"wp-block-spacer\"></div>\n<!-- /wp:spacer -->"

/-- `makeTocBlock(sections)` from index.js: the navigation dropdown,
emitted as a `wp:html` block. -/
def makeTocBlock (sections : List GallerySection) : String :=
  let options := String.intercalate "\n" (sections.map (fun s =>
    "<option value=\"#" ++ makeAnchorId s.name ++ "\">" ++ s.name ++ "</option>"))
  let dropdownHtml :=
    "<div class=\"toc-dropdown\" style=\"margin-bottom: 1.5em;\">\n<label for=\"toc-select\" style=\"font-weight: bold; margin-right: 0.5em;\">Aller à la section:</label>\n<select id=\"toc-select\" onchange=\"if(this.value) window.location.hash = this.value;\" style=\"padding: 0.5em; font-size: 1em; min-width: 200px;\">\n<option value=\"\">-- Choisir une section --</option>\n" ++
    options ++ "\n</select>\n</div>"
  "<!-- wp:html -->\n" ++ dropdownHtml ++ "\n<!-- /wp:html -->"

/-- `makeSectionContent(sections)` from index.js: per section a heading
(anchored) and a gallery, separated by 30px spacers. -/
def makeSectionContent (sections : List GallerySection) : String :=
  let spacer := makeSpacerBlock 30
  String.intercalate ("\n\n" ++ spacer ++ "\n\n") (sections.map (fun s =>
    makeHeadingBlock s.name 2 (makeAnchorId s.name) ++ "\n\n" ++
    makeGalleryBlock s.attachments "all-photos"))

/-- `makePageContent(sections)` from index.js: styles, navigation dropdown,
50px spacer, then the section content. -/
def makePageContent (sections : List GallerySection) : String :=
  makeMasonryStyles ++ "\n\n" ++ makeTocBlock sections ++ "\n\n" ++
  makeSpacerBlock 50 ++ "\n\n" ++ makeSectionContent sections

/-! ## Content merger (index.js: syncOnce lines 589–607, regex
`/<!--\s*wp:heading[\s\S]*<!--\s*\/wp:gallery\s*-->/g`).

The two literal sub-patterns are deterministic (each `\s*` is a maximal
whitespace run followed by a non-whitespace literal), so the regex match is:
the first position where `<!--\s*wp:heading` matches, with the greedy
`[\s\S]*` backtracking to the *last* position at or after it where
`<!--\s*\/wp:gallery\s*-->` matches. -/

/-- Match a literal character list, returning the remainder. -/
def matchLit : List Char → List Char → Option (List Char)
  | [], cs => some cs
  | _ :: _, [] => none
  | p :: ps, c :: cs => if c = p then matchLit ps cs else none

/-- `<!--\s*wp:heading` at the head of the list. -/
def matchHeadingOpen (cs : List Char) : Option (List Char) :=
  match matchLit "<!--".data cs with
  | none => none
  | some r1 => matchLit "wp:heading".data (r1.dropWhile isJsWs)

/-- `<!--\s*\/wp:gallery\s*-->` at the head of the list. -/
def matchGalleryClose (cs : List Char) : Option (List Char) :=
  match matchLit "<!--".data cs with
  | none => none
  | some r1 =>
    match matchLit "/wp:gallery".data (r1.dropWhile isJsWs) with
    | none => none
    | some r2 => matchLit "-->".data (r2.dropWhile isJsWs)


/-- The remainder after the *last* position where `matchGalleryClose`
succeeds (the greedy `[\s\S]*` backtracks from the end) — recursive
specification. -/
def findLastClose : List Char → Option (List Char)
  | [] => none
  | c :: cs =>
    match findLastClose cs with
    | some t => some t
    | none => matchGalleryClose (c :: cs)

/-- Scanning formulation of `findLastClose`: walk left to right keeping the
most recent close match.  Tail-recursive so that concrete page bodies can be
evaluated; `findLastCloseLoop_eq` proves it agrees with `findLastClose`. -/
def findLastCloseLoop (best : Option (List Char)) : List Char → Option (List Char)
  | [] => best
  | c :: cs =>
    match matchGalleryClose (c :: cs) with
    | some t => findLastCloseLoop (some t) cs
    | none => findLastCloseLoop best cs

theorem findLastCloseLoop_eq (l : List Char) :
    ∀ best, findLastCloseLoop best l =
      match findLastClose l with
      | some t => some t
      | none => best := by
  induction l with
  | nil => intro best; rfl
  | cons c cs ih =>
    intro best
    cases hm : matchGalleryClose (c :: cs) with
    | none =>
      cases hf : findLastClose cs with
      | none => simp [findLastCloseLoop, findLastClose, hm, hf, ih]
      | some t => simp [findLastCloseLoop, findLastClose, hm, hf, ih]
    | some t0 =>
      cases hf : findLastClose cs with
      | none => simp [findLastCloseLoop, findLastClose, hm, hf, ih]
      | some t => simp [findLastCloseLoop, findLastClose, hm, hf, ih]

/-- One regex match — recursive specification: `some (pre, post)` where
`pre` is everything before the match and `post` everything after it.  Scans
left to right for a `wp:heading` opener that has a gallery closer somewhere
after it, exactly as the backtracking regex engine does. -/
def findSpanAux : List Char → Option (List Char × List Char)
  | [] => none
  | c :: cs =>
    match matchHeadingOpen (c :: cs) with
    | some rest =>
      match findLastClose rest with
      | some post => some ([], post)
      | none => (findSpanAux cs).map (fun pp => (c :: pp.1, pp.2))
    | none => (findSpanAux cs).map (fun pp => (c :: pp.1, pp.2))

/-- Tail-recursive scanning formulation of `findSpanAux`, accumulating the
prefix in reverse; `findSpan_eq_aux` proves the agreement. -/
def findSpanLoop (acc : List Char) : List Char → Option (List Char × List Char)
  | [] => none
  | c :: cs =>
    match matchHeadingOpen (c :: cs) with
    | some rest =>
      match findLastCloseLoop none rest with
      | some post => some (acc.reverse, post)
      | none => findSpanLoop (c :: acc) cs
    | none => findSpanLoop (c :: acc) cs

/-- The single regex match of `sectionPattern` on a body. -/
def findSpan (cs : List Char) : Option (List Char × List Char) :=
  findSpanLoop [] cs

theorem findSpanLoop_eq (l : List Char) :
    ∀ acc, findSpanLoop acc l =
      (findSpanAux l).map (fun pp => (acc.reverse ++ pp.1, pp.2)) := by
  induction l with
  | nil => intro acc; rfl
  | cons c cs ih =>
    intro acc
    cases hh : matchHeadingOpen (c :: cs) with
    | some rest =>
      cases hf : findLastClose rest with
      | some post =>
        have hl : findLastCloseLoop none rest = some post := by
          rw [findLastCloseLoop_eq rest none, hf]
        simp [findSpanLoop, findSpanAux, hh, hf, hl]
      | none =>
        have hl : findLastCloseLoop none rest = none := by
          rw [findLastCloseLoop_eq rest none, hf]
        cases hs : findSpanAux cs with
        | some pp =>
          simp [findSpanLoop, findSpanAux, hh, hf, hl, ih, hs, List.append_assoc]
        | none => simp [findSpanLoop, findSpanAux, hh, hf, hl, ih, hs]
    | none =>
      cases hs : findSpanAux cs with
      | some pp =>
        simp [findSpanLoop, findSpanAux, hh, ih, hs, List.append_assoc]
      | none => simp [findSpanLoop, findSpanAux, hh, ih, hs]

theorem findSpan_eq_aux (l : List Char) : findSpan l = findSpanAux l := by
  rw [findSpan, findSpanLoop_eq l []]
  match h : findSpanAux l with
  | some pp => simp
  | none => simp

/-- Tail-recursive list length (used as fuel where `List.length` would not
reduce iteratively). -/
def charCount : List Char → Nat → Nat
  | [], n => n
  | _ :: cs, n => charCount cs (n + 1)

theorem charCount_eq (l : List Char) : ∀ n, charCount l n = l.length + n := by
  induction l with
  | nil => intro n; simp [charCount]
  | cons c cs ih => intro n; simp [charCount, ih]; omega

/-- `prevContent.replace(sectionPattern, '')` with the `g` flag: remove each
match in turn, continuing after the removed span.  Every match consumes at
least one character, so `cs.length` fuel always suffices. -/
def replaceSpansFuel : Nat → List Char → List Char
  | 0, cs => cs
  | fuel + 1, cs =>
    match findSpan cs with
    | some pp => pp.1 ++ replaceSpansFuel fuel pp.2
    | none => cs

def replaceAllSpans (cs : List Char) : List Char :=
  replaceSpansFuel (charCount cs 0) cs

/-- The content-merge step of `syncOnce` (index.js lines 589–607):
`clearContent` replaces wholesale; otherwise the matched span is removed,
the remainder trimmed, and the new fragment appended after a blank line
(or the fragment stands alone when nothing remains). -/
def mergePageContent (prevContent newPageContent : String) (clearContent : Bool) : String :=
  if clearContent then newPageContent
  else if (findSpan prevContent.data).isSome then
    let newContent := jsTrim (String.mk (replaceAllSpans prevContent.data))
    if newContent = "" then newPageContent
    else newContent ++ "\n\n" ++ newPageContent
  else if prevContent = "" then newPageContent
  else prevContent ++ "\n\n" ++ newPageContent

example :
    mergePageContent "" "X" false = "X" := by decide
example :
    mergePageContent "hand" "X" false = "hand\n\nX" := by decide
example :
    mergePageContent "a <!-- wp:heading z <!-- /wp:gallery --> b" "X" false
      = "a  b\n\nX" := by decide
example :
    mergePageContent "a <!-- wp:heading z <!-- /wp:gallery --> b" "X" true = "X" := by decide


/-! ### Structural lemmas about the span scanner -/

theorem matchLit_suffix : ∀ (p cs r : List Char), matchLit p cs = some r → r <:+ cs := by
  intro p
  induction p with
  | nil =>
    intro cs r h
    simp only [matchLit] at h
    cases h
    exact List.suffix_refl _
  | cons p ps ih =>
    intro cs r h
    cases cs with
    | nil => simp [matchLit] at h
    | cons c cs' =>
      simp only [matchLit] at h
      by_cases hc : c = p
      · rw [if_pos hc] at h
        exact (ih cs' r h).trans (List.suffix_cons c cs')
      · rw [if_neg hc] at h
        cases h

theorem matchLit_cons_tail (p : Char) (ps : List Char) (c : Char) (cs r : List Char)
    (h : matchLit (p :: ps) (c :: cs) = some r) : r <:+ cs := by
  simp only [matchLit] at h
  by_cases hc : c = p
  · rw [if_pos hc] at h
    exact matchLit_suffix ps cs r h
  · rw [if_neg hc] at h
    cases h

theorem matchHeadingOpen_tail_suffix (c : Char) (cs r : List Char)
    (h : matchHeadingOpen (c :: cs) = some r) : r <:+ cs := by
  unfold matchHeadingOpen at h
  cases hm : matchLit "<!--".data (c :: cs) with
  | none => simp only [hm] at h; cases h
  | some r1 =>
    simp only [hm] at h
    have h1 : r1 <:+ cs := by
      rw [show "<!--".data = '<' :: "!--".data from rfl] at hm
      exact matchLit_cons_tail _ _ _ _ _ hm
    exact ((matchLit_suffix _ _ _ h).trans (List.dropWhile_suffix isJsWs)).trans h1

theorem matchGalleryClose_tail_suffix (c : Char) (cs t : List Char)
    (h : matchGalleryClose (c :: cs) = some t) : t <:+ cs := by
  unfold matchGalleryClose at h
  cases hm : matchLit "<!--".data (c :: cs) with
  | none => simp only [hm] at h; cases h
  | some r1 =>
    simp only [hm] at h
    have h1 : r1 <:+ cs := by
      rw [show "<!--".data = '<' :: "!--".data from rfl] at hm
      exact matchLit_cons_tail _ _ _ _ _ hm
    cases hm2 : matchLit "/wp:gallery".data (r1.dropWhile isJsWs) with
    | none => simp only [hm2] at h; cases h
    | some r2 =>
      simp only [hm2] at h
      have h2 : r2 <:+ r1 :=
        (matchLit_suffix _ _ _ hm2).trans (List.dropWhile_suffix isJsWs)
      exact (((matchLit_suffix _ _ _ h).trans
        (List.dropWhile_suffix isJsWs)).trans h2).trans h1

theorem findLastClose_none_parts (c : Char) (cs : List Char)
    (h : findLastClose (c :: cs) = none) :
    findLastClose cs = none ∧ matchGalleryClose (c :: cs) = none := by
  simp only [findLastClose] at h
  cases hf : findLastClose cs with
  | some t => simp only [hf] at h; cases h
  | none => simp only [hf] at h; exact ⟨rfl, h⟩

theorem findLastClose_none_suffix :
    ∀ (l : List Char), findLastClose l = none →
      ∀ s, s <:+ l → findLastClose s = none := by
  intro l
  induction l with
  | nil =>
    intro _ s hs
    rw [List.suffix_nil.mp hs]
    rfl
  | cons c cs ih =>
    intro h s hs
    obtain ⟨h1, h2⟩ := findLastClose_none_parts c cs h
    rcases List.suffix_cons_iff.mp hs with heq | hsuf
    · rw [heq]
      simp only [findLastClose, h1, h2]
    · exact ih h1 s hsuf

theorem findLastClose_some_noclose :
    ∀ (l t : List Char), findLastClose l = some t →
      findLastClose t = none ∧ t <:+ l := by
  intro l
  induction l with
  | nil => intro t h; cases h
  | cons c cs ih =>
    intro t h
    simp only [findLastClose] at h
    cases hf : findLastClose cs with
    | some t' =>
      simp only [hf, Option.some.injEq] at h
      rw [← h]
      obtain ⟨hn, hs⟩ := ih t' hf
      exact ⟨hn, hs.trans (List.suffix_cons c cs)⟩
    | none =>
      simp only [hf] at h
      have hsuf : t <:+ cs := matchGalleryClose_tail_suffix c cs t h
      exact ⟨findLastClose_none_suffix cs hf t hsuf, hsuf.trans (List.suffix_cons c cs)⟩

theorem findSpanAux_none_of_noclose :
    ∀ (l : List Char), findLastClose l = none → findSpanAux l = none := by
  intro l
  induction l with
  | nil => intro _; rfl
  | cons c cs ih =>
    intro h
    obtain ⟨h1, _⟩ := findLastClose_none_parts c cs h
    simp only [findSpanAux]
    cases hh : matchHeadingOpen (c :: cs) with
    | some rest =>
      have hrest : findLastClose rest = none :=
        findLastClose_none_suffix cs h1 rest (matchHeadingOpen_tail_suffix c cs rest hh)
      simp only [hrest, ih h1, Option.map_none']
    | none =>
      simp only [ih h1, Option.map_none']

theorem findSpanAux_some_post :
    ∀ (l pre post : List Char), findSpanAux l = some (pre, post) →
      findSpanAux post = none := by
  intro l
  induction l with
  | nil => intro pre post h; cases h
  | cons c cs ih =>
    intro pre post h
    simp only [findSpanAux] at h
    cases hh : matchHeadingOpen (c :: cs) with
    | some rest =>
      simp only [hh] at h
      cases hf : findLastClose rest with
      | some post' =>
        simp only [hf, Option.some.injEq, Prod.mk.injEq] at h
        rw [← h.2]
        exact findSpanAux_none_of_noclose _ (findLastClose_some_noclose rest post' hf).1
      | none =>
        simp only [hf] at h
        cases hs : findSpanAux cs with
        | some pp =>
          simp only [hs, Option.map_some', Option.some.injEq, Prod.mk.injEq] at h
          rw [← h.2]
          exact ih pp.1 pp.2 (by rw [hs])
        | none => simp only [hs] at h; cases h
    | none =>
      simp only [hh] at h
      cases hs : findSpanAux cs with
      | some pp =>
        simp only [hs, Option.map_some', Option.some.injEq, Prod.mk.injEq] at h
        rw [← h.2]
        exact ih pp.1 pp.2 (by rw [hs])
      | none => simp only [hs] at h; cases h

theorem findSpanAux_decomp :
    ∀ (l pre post : List Char), findSpanAux l = some (pre, post) →
      ∃ rest, l = pre ++ rest ∧ (matchHeadingOpen rest).isSome = true := by
  intro l
  induction l with
  | nil => intro pre post h; cases h
  | cons c cs ih =>
    intro pre post h
    simp only [findSpanAux] at h
    cases hh : matchHeadingOpen (c :: cs) with
    | some rest0 =>
      simp only [hh] at h
      cases hf : findLastClose rest0 with
      | some post' =>
        simp only [hf, Option.some.injEq, Prod.mk.injEq] at h
        refine ⟨c :: cs, ?_, by rw [hh]; rfl⟩
        rw [← h.1]
        rfl
      | none =>
        simp only [hf] at h
        cases hs : findSpanAux cs with
        | some pp =>
          simp only [hs, Option.map_some', Option.some.injEq, Prod.mk.injEq] at h
          obtain ⟨rest, hsplit, hopen⟩ := ih pp.1 pp.2 (by rw [hs])
          refine ⟨rest, ?_, hopen⟩
          rw [← h.1, List.cons_append, ← hsplit]
        | none => simp only [hs] at h; cases h
    | none =>
      simp only [hh] at h
      cases hs : findSpanAux cs with
      | some pp =>
        simp only [hs, Option.map_some', Option.some.injEq, Prod.mk.injEq] at h
        obtain ⟨rest, hsplit, hopen⟩ := ih pp.1 pp.2 (by rw [hs])
        refine ⟨rest, ?_, hopen⟩
        rw [← h.1, List.cons_append, ← hsplit]
      | none => simp only [hs] at h; cases h

theorem replaceSpansFuel_of_none (cs : List Char) (h : findSpan cs = none) :
    ∀ k, replaceSpansFuel k cs = cs := by
  intro k
  cases k with
  | zero => rfl
  | succ k => rw [replaceSpansFuel, h]

theorem replaceSpansFuel_succ (cs pre post : List Char) (k : Nat)
    (h : findSpan cs = some (pre, post)) (hpost : findSpan post = none) :
    replaceSpansFuel (k + 1) cs = pre ++ post := by
  rw [replaceSpansFuel, h]
  show pre ++ replaceSpansFuel k post = pre ++ post
  rw [replaceSpansFuel_of_none post hpost k]

/-! ### The merge step, algebraically -/

theorem findSpan_nil : findSpan ([] : List Char) = none := rfl

/-- What the non-clear merge computes when the body contains a span:
the span is deleted (`pre ++ post` remains), the remainder trimmed, and the
fragment appended after a blank line — or the fragment alone when nothing
non-blank remains. -/
theorem mergePageContent_span (prev frag : String) (pre post : List Char)
    (h : findSpan prev.data = some (pre, post)) :
    mergePageContent prev frag false =
      if jsTrimList (pre ++ post) = [] then frag
      else String.mk (jsTrimList (pre ++ post)) ++ "\n\n" ++ frag := by
  have haux : findSpanAux prev.data = some (pre, post) := by
    rw [← findSpan_eq_aux]; exact h
  have hpost : findSpan post = none := by
    rw [findSpan_eq_aux]
    exact findSpanAux_some_post _ _ _ haux
  have hne : prev.data ≠ [] := by
    intro h0
    rw [h0, findSpan_nil] at h
    cases h
  have hlen : 0 < prev.data.length := List.length_pos.mpr hne
  have hrep : replaceAllSpans prev.data = pre ++ post := by
    unfold replaceAllSpans
    rw [charCount_eq]
    have hn : prev.data.length + 0 = (prev.data.length - 1) + 1 := by omega
    rw [hn]
    exact replaceSpansFuel_succ _ _ _ _ h hpost
  have hmerge : mergePageContent prev frag false =
      (if jsTrim (String.mk (replaceAllSpans prev.data)) = "" then frag
       else jsTrim (String.mk (replaceAllSpans prev.data)) ++ "\n\n" ++ frag) := by
    unfold mergePageContent
    rw [if_neg (by simp : ¬ (false = true)), if_pos (by rw [h]; rfl)]
  rw [hmerge, hrep]
  have htrim : jsTrim (String.mk (pre ++ post)) = String.mk (jsTrimList (pre ++ post)) := rfl
  rw [htrim]
  by_cases hl : jsTrimList (pre ++ post) = []
  · rw [if_pos hl, if_pos (show String.mk (jsTrimList (pre ++ post)) = "" by rw [hl])]
  · have hne2 : ¬ (String.mk (jsTrimList (pre ++ post)) = "") := by
      intro hcontra
      apply hl
      have hd : (String.mk (jsTrimList (pre ++ post))).data = ("" : String).data := by
        rw [hcontra]
      exact hd
    rw [if_neg hl, if_neg hne2]

/-! ### Trim and length lemmas -/

/-- The trimmed content is an infix of the original (only edge whitespace is
removed). -/
theorem jsTrimList_infix (l : List Char) : jsTrimList l <:+: l := by
  have h1 : List.dropWhile isJsWs l <:+ l := List.dropWhile_suffix isJsWs
  have h2 : jsTrimList l <+: List.dropWhile isJsWs l := by
    rw [← List.reverse_suffix]
    unfold jsTrimList
    rw [List.reverse_reverse]
    exact List.dropWhile_suffix isJsWs
  exact h2.isInfix.trans h1.isInfix

/-- A list containing a non-whitespace character does not trim to empty. -/
theorem jsTrimList_ne_nil_of_mem (l : List Char) (c : Char)
    (hc : c ∈ l) (hw : isJsWs c = false) : jsTrimList l ≠ [] := by
  intro h
  unfold jsTrimList at h
  have h2 : List.dropWhile isJsWs (List.dropWhile isJsWs l).reverse = [] :=
    List.reverse_eq_nil_iff.mp h
  have hall : ∀ x ∈ List.dropWhile isJsWs l, isJsWs x = true := by
    intro x hx
    exact List.dropWhile_eq_nil_iff.mp h2 x (List.mem_reverse.mpr hx)
  have hsplit := List.takeWhile_append_dropWhile (p := isJsWs) (l := l)
  rw [← hsplit] at hc
  rcases List.mem_append.mp hc with htake | hdrop
  · rw [List.mem_takeWhile_imp htake] at hw
    cases hw
  · rw [hall c hdrop] at hw
    cases hw

theorem String_data_append (a b : String) : (a ++ b).data = a.data ++ b.data :=
  String.data_append a b

/-- Appending a non-empty prefix and a blank line in front of a string
changes it (by length). -/
theorem append_blank_ne (t f : String) (ht : t.data ≠ []) :
    t ++ "\n\n" ++ f ≠ f := by
  intro h
  have hlen := congrArg (fun s : String => s.data.length) h
  simp only [String_data_append, List.length_append] at hlen
  have h2 : ("\n\n" : String).data.length = 2 := rfl
  rw [h2] at hlen
  have hpos : 0 < t.data.length := List.length_pos.mpr ht
  omega

/-- Merging into an empty body just installs the fragment. -/
theorem merge_empty_prev (f : String) : mergePageContent "" f false = f := rfl

/-! ## Merge idempotence (C1) -/

def sectionsA : List GallerySection :=
  [⟨"Alpha", [⟨1, "https://wp.example/a.jpg", "a"⟩]⟩]

def sectionsB : List GallerySection :=
  [⟨"Beta", [⟨2, "https://wp.example/b.jpg", "b"⟩]⟩]

set_option maxRecDepth 40000

/-- C1 (code bug): merging twice is *not* the same as merging once.  The
regex span starts at the first `wp:heading` marker, but the rendered
navigation dropdown is a `wp:html` block (`makeTocBlock`), so the previous
run's styles block, dropdown and 50px spacer survive the replacement and
accumulate — contradicting the code's own comments ("Replace all existing
content (TOC + heading+gallery blocks)", "including old TOC").  Starting
from an empty body, two merges differ from one. -/
theorem merge_twice_accumulates_preamble :
    mergePageContent (mergePageContent "" (makePageContent sectionsA) false)
        (makePageContent sectionsB) false
      ≠ mergePageContent "" (makePageContent sectionsB) false := by
  rw [merge_empty_prev, merge_empty_prev]
  have hs : (findSpan (makePageContent sectionsA).data).isSome = true := by decide
  obtain ⟨pp, h1⟩ := Option.isSome_iff_exists.mp hs
  obtain ⟨pre, post⟩ := pp
  have haux : findSpanAux (makePageContent sectionsA).data = some (pre, post) := by
    rw [← findSpan_eq_aux]; exact h1
  obtain ⟨rest, hsplit, hopen⟩ := findSpanAux_decomp _ _ _ haux
  have hopen2 : matchHeadingOpen (makePageContent sectionsA).data = none := by decide
  have hpre_ne : pre ≠ [] := by
    intro h0
    rw [h0, List.nil_append] at hsplit
    rw [← hsplit, hopen2] at hopen
    simp at hopen
  have hhead : (makePageContent sectionsA).data.head? = some '<' := by decide
  obtain ⟨c0, pre', hpre⟩ : ∃ c0 pre', pre = c0 :: pre' := by
    cases hp : pre with
    | nil => exact absurd hp hpre_ne
    | cons a b => exact ⟨a, b, rfl⟩
  have hc0 : c0 = '<' := by
    rw [hsplit, hpre] at hhead
    simp only [List.cons_append, List.head?_cons, Option.some.injEq] at hhead
    exact hhead
  have hmem : '<' ∈ pre := by
    rw [hpre, ← hc0]
    exact List.mem_cons_self c0 pre'
  have htrim : jsTrimList (pre ++ post) ≠ [] :=
    jsTrimList_ne_nil_of_mem _ '<' (List.mem_append_left post hmem) (by decide)
  rw [mergePageContent_span _ _ _ _ h1, if_neg htrim]
  exact append_blank_ne _ _ htrim

/-! ## Frame property of the merge (C2) -/

example :
    mergePageContent " hand <!-- wp:heading zz <!-- /wp:gallery -->" "X" false
      = "hand\n\nX" := by decide

/-- C2 (counterexample): hand-authored content outside the span is *not*
always preserved verbatim.  With body `" hand " ++ span` the merge output is
`"hand\n\nX"`: the edge whitespace of the surviving content is trimmed away,
so the original outside content `" hand "` no longer occurs in the result. -/
theorem merge_outside_not_verbatim_cex :
    ¬ (" hand ".data <:+:
        (mergePageContent " hand <!-- wp:heading zz <!-- /wp:gallery -->" "X" false).data) := by
  decide

/-- C2 (amended): the merge removes exactly the matched span; the surviving
content outside it is preserved *up to JS `trim()` of its edges* — the
trimmed remainder is an infix of the outside content — and is placed before
the new fragment, separated by a blank line. -/
theorem merge_outside_preserved_up_to_trim :
    ∀ (prev frag : String) (pre post : List Char),
      findSpan prev.data = some (pre, post) →
      jsTrimList (pre ++ post) ≠ [] →
      (mergePageContent prev frag false).data
          = jsTrimList (pre ++ post) ++ ('\n' :: '\n' :: []) ++ frag.data
        ∧ jsTrimList (pre ++ post) <:+: (pre ++ post) := by
  intro prev frag pre post h hne
  constructor
  · rw [mergePageContent_span _ _ _ _ h, if_neg hne]
    rw [String_data_append, String_data_append]
  · exact jsTrimList_infix _

/-- Concrete instantiation of `merge_outside_preserved_up_to_trim`. -/
theorem merge_outside_preserved_up_to_trim_witness :
    (mergePageContent "x <!-- wp:heading<!-- /wp:gallery -->" "F" false).data
        = jsTrimList ("x ".data ++ []) ++ ('\n' :: '\n' :: []) ++ "F".data
      ∧ jsTrimList ("x ".data ++ []) <:+: ("x ".data ++ []) :=
  merge_outside_preserved_up_to_trim _ _ _ _ (by decide) (by decide)

/-! ## Transfer retry policy (index.js: uploadMedia) -/

/-- One whole `try` block of the upload loop (the POST, plus the optional
`alt_text` patch and cache registration on success), seen from the `catch`:
either a media object or an HTTP failure. -/
inductive AttemptOutcome
  | ok (media : FoundMedia)
  | fail (f : HttpFailure)
deriving DecidableEq

/-- `[2000, 5000, 10000]` — the backoff schedule. -/
def uploadDelays : List Nat := [2000, 5000, 10000]

/-- `delays[attempt] || delays[delays.length - 1]`: past the end the last
value (10s) repeats. -/
def delayFor (attempt : Nat) : Nat := uploadDelays.getD attempt 10000

/-- An error escaping `uploadMedia`: a thrown `new Error(msg)`, or the
underlying axios error rethrown bare. -/
inductive UploadError
  | msg (s : String)
  | raw (f : HttpFailure)
deriving DecidableEq

def authUploadMsg : String :=
  "WordPress authentication failed (401) while uploading media. Check your WP_USERNAME and WP_APP_PASSWORD. The user may also lack permission to upload media."

/-- Two-decimal rendering of `n` hundredths. -/
def twoDecimals (h : Nat) : String :=
  toString (h / 100) ++ "." ++ (if h % 100 < 10 then "0" else "") ++ toString (h % 100)

/-- `(buf.length / (1024 * 1024)).toFixed(2)` — the size in MB with two
decimals.  Rounding is half-up on exact rationals; the IEEE-double tie cases
of `toFixed` differ only on inputs within one part in 2^52 of a tie and do
not affect any input used here. -/
def fileSizeMB (len : Nat) : String :=
  twoDecimals ((len * 100 + 524288) / 1048576)

example : fileSizeMB 1048576 = "1.00" := by decide
example : fileSizeMB 5242880 = "5.00" := by decide

def unavail503Msg (filename : String) (bufLen retries : Nat) : String :=
  "WordPress server returned 503 Service Unavailable while uploading \"" ++ filename ++
  "\" (" ++ fileSizeMB bufLen ++ "MB) after " ++ toString retries ++
  " retries. The server may be overloaded or have timeout issues."

/-- How many attempts ran and which delays were slept, in order. -/
structure UploadTrace where
  attempts : Nat
  delays : List Nat
deriving DecidableEq

/-- The retry loop of `uploadMedia` (index.js lines 427–471).  `attempt`
counts from 0; `fuel = retries + 1 - attempt` outer iterations remain;
`lastErr` is the JS `lastError` variable.  Mirrors the source order:
success → return; 401 → fatal auth error; retryable (503/429/no response)
with attempts left → sleep and continue; 503 → descriptive fatal error;
otherwise rethrow the bare error.  The fuel-exhausted branch is the
(unreachable) `throw lastError` after the loop. -/
def uploadGo (outcome : Nat → AttemptOutcome) (bufLen : Nat) (filename : String)
    (retries : Nat) : Nat → Nat → Option HttpFailure → UploadTrace →
    Except UploadError FoundMedia × UploadTrace
  | _, 0, lastErr, tr =>
    (.error (match lastErr with
      | some f => .raw f
      | none => .raw ⟨none⟩), tr)
  | attempt, fuel + 1, _, tr =>
    match outcome attempt with
    | .ok m => (.ok m, ⟨tr.attempts + 1, tr.delays⟩)
    | .fail f =>
      if f.status = some 401 then
        (.error (.msg authUploadMsg), ⟨tr.attempts + 1, tr.delays⟩)
      else if (f.status = some 503 ∨ f.status = some 429 ∨ f.status = none)
          ∧ attempt < retries then
        uploadGo outcome bufLen filename retries (attempt + 1) fuel (some f)
          ⟨tr.attempts + 1, tr.delays ++ [delayFor attempt]⟩
      else if f.status = some 503 then
        (.error (.msg (unavail503Msg filename bufLen retries)), ⟨tr.attempts + 1, tr.delays⟩)
      else
        (.error (.raw f), ⟨tr.attempts + 1, tr.delays⟩)

/-- `uploadMedia(buf, filename, meta, retries)` with its attempt outcomes
supplied as an oracle; returns the result together with the attempt/delay
trace. -/
def uploadMediaModel (outcome : Nat → AttemptOutcome) (bufLen : Nat)
    (filename : String) (retries : Nat) :
    Except UploadError FoundMedia × UploadTrace :=
  uploadGo outcome bufLen filename retries 0 (retries + 1) none ⟨0, []⟩

/-- A failure the code classifies as retryable: 503, 429, or no response. -/
def isRetryableOutcome : AttemptOutcome → Bool
  | .ok _ => false
  | .fail f => f.status = some 503 || f.status = some 429 || f.status = none

instance {ε α : Type} [DecidableEq ε] [DecidableEq α] : DecidableEq (Except ε α) :=
  fun a b =>
    match a, b with
    | .ok x, .ok y =>
      if h : x = y then isTrue (by rw [h]) else isFalse (by intro hh; cases hh; exact h rfl)
    | .error x, .error y =>
      if h : x = y then isTrue (by rw [h]) else isFalse (by intro hh; cases hh; exact h rfl)
    | .ok _, .error _ => isFalse (by intro hh; cases hh)
    | .error _, .ok _ => isFalse (by intro hh; cases hh)

example :
    uploadMediaModel (fun _ => .fail ⟨some 503⟩) 5 "a.jpg" 3
      = (.error (.msg (unavail503Msg "a.jpg" 5 3)), ⟨4, [2000, 5000, 10000]⟩) := by decide
example :
    uploadMediaModel (fun i => if i < 2 then .fail ⟨none⟩ else .ok ⟨7, "u", ""⟩) 5 "a.jpg" 3
      = (.ok ⟨7, "u", ""⟩, ⟨3, [2000, 5000]⟩) := by decide
example :
    uploadMediaModel (fun _ => .fail ⟨some 500⟩) 5 "a.jpg" 3
      = (.error (.raw ⟨some 500⟩), ⟨1, []⟩) := by decide

/-- Stepping lemma: as long as every attempt in `[attempt, attempt+d)` fails
with a retryable condition, the loop sleeps the scheduled delays and arrives
at attempt `attempt+d` with `d` more attempts counted. -/
theorem uploadGo_skip (outcome : Nat → AttemptOutcome) (bufLen : Nat)
    (filename : String) (retries : Nat) :
    ∀ (d attempt : Nat) (lastErr : Option HttpFailure) (tr : UploadTrace),
      attempt + d ≤ retries →
      (∀ i, attempt ≤ i → i < attempt + d → isRetryableOutcome (outcome i) = true) →
      ∃ le, uploadGo outcome bufLen filename retries attempt
          (retries + 1 - attempt) lastErr tr
        = uploadGo outcome bufLen filename retries (attempt + d)
            (retries + 1 - (attempt + d)) le
            ⟨tr.attempts + d, tr.delays ++ (List.range' attempt d).map delayFor⟩ := by
  intro d
  induction d with
  | zero =>
    intro attempt lastErr tr _ _
    exact ⟨lastErr, by simp⟩
  | succ d ih =>
    intro attempt lastErr tr hle hr
    have hlt : attempt < retries := by omega
    have hfuel : retries + 1 - attempt = (retries - attempt) + 1 := by omega
    rw [hfuel]
    have hout : isRetryableOutcome (outcome attempt) = true :=
      hr attempt (Nat.le_refl _) (by omega)
    cases ho : outcome attempt with
    | ok m => rw [ho] at hout; simp [isRetryableOutcome] at hout
    | fail f =>
      rw [ho] at hout
      simp only [isRetryableOutcome, Bool.or_eq_true, decide_eq_true_eq] at hout
      have h401 : ¬ (f.status = some 401) := by
        intro hq
        rw [hq] at hout
        simp at hout
      have hcond : (f.status = some 503 ∨ f.status = some 429 ∨ f.status = none)
          ∧ attempt < retries := ⟨by tauto, hlt⟩
      have hstep : uploadGo outcome bufLen filename retries attempt
          ((retries - attempt) + 1) lastErr tr
        = uploadGo outcome bufLen filename retries (attempt + 1) (retries - attempt)
            (some f) ⟨tr.attempts + 1, tr.delays ++ [delayFor attempt]⟩ := by
        simp only [uploadGo, ho]
        rw [if_neg h401, if_pos hcond]
      rw [hstep]
      have hfuel2 : retries - attempt = retries + 1 - (attempt + 1) := by omega
      rw [hfuel2]
      obtain ⟨le, heq⟩ := ih (attempt + 1) (some f)
        ⟨tr.attempts + 1, tr.delays ++ [delayFor attempt]⟩ (by omega)
        (fun i h1 h2 => hr i (by omega) (by omega))
      refine ⟨le, ?_⟩
      rw [heq]
      have hidx : attempt + 1 + d = attempt + (d + 1) := by omega
      have hatt : tr.attempts + 1 + d = tr.attempts + (d + 1) := by omega
      have hdel : (tr.delays ++ [delayFor attempt]) ++ (List.range' (attempt + 1) d).map delayFor
          = tr.delays ++ (List.range' attempt (d + 1)).map delayFor := by
        rw [List.range'_succ, List.map_cons, List.append_assoc]
        rfl
      rw [hidx, hatt, hdel]

/-- On the last allowed attempt a retryable failure exits the loop with an
error (descriptive for 503, the bare error otherwise). -/
theorem uploadGo_final_retryable (outcome : Nat → AttemptOutcome) (bufLen : Nat)
    (filename : String) (retries : Nat) (le : Option HttpFailure) (tr : UploadTrace)
    (hout : isRetryableOutcome (outcome retries) = true) :
    ∃ e, uploadGo outcome bufLen filename retries retries 1 le tr
      = (.error e, ⟨tr.attempts + 1, tr.delays⟩) := by
  cases ho : outcome retries with
  | ok m => rw [ho] at hout; simp [isRetryableOutcome] at hout
  | fail f =>
    rw [ho] at hout
    simp only [isRetryableOutcome, Bool.or_eq_true, decide_eq_true_eq] at hout
    have h401 : ¬ (f.status = some 401) := by
      intro hq
      rw [hq] at hout
      simp at hout
    have hcond : ¬ ((f.status = some 503 ∨ f.status = some 429 ∨ f.status = none)
        ∧ retries < retries) := by
      intro ⟨_, hc⟩
      omega
    by_cases h503 : f.status = some 503
    · refine ⟨.msg (unavail503Msg filename bufLen retries), ?_⟩
      simp only [uploadGo, ho]
      rw [if_neg h401, if_neg hcond, if_pos h503]
    · refine ⟨.raw f, ?_⟩
      simp only [uploadGo, ho]
      rw [if_neg h401, if_neg hcond, if_neg h503]

/-- Same, when the last failure is specifically a 503: the descriptive
message is raised. -/
theorem uploadGo_final_503 (outcome : Nat → AttemptOutcome) (bufLen : Nat)
    (filename : String) (retries : Nat) (le : Option HttpFailure) (tr : UploadTrace)
    (hout : outcome retries = .fail ⟨some 503⟩) :
    uploadGo outcome bufLen filename retries retries 1 le tr
      = (.error (.msg (unavail503Msg filename bufLen retries)),
         ⟨tr.attempts + 1, tr.delays⟩) := by
  simp only [uploadGo, hout]
  simp [Nat.lt_irrefl]

/-- A 401 failure aborts immediately, with no delay and no further
attempts. -/
theorem uploadGo_401 (outcome : Nat → AttemptOutcome) (bufLen : Nat)
    (filename : String) (retries attempt fuel : Nat) (le : Option HttpFailure)
    (tr : UploadTrace) (h : outcome attempt = .fail ⟨some 401⟩) :
    uploadGo outcome bufLen filename retries attempt (fuel + 1) le tr
      = (.error (.msg authUploadMsg), ⟨tr.attempts + 1, tr.delays⟩) := by
  simp only [uploadGo, h]
  simp

/-- C4: when every attempt up to the retry count fails with a retryable
condition (503, 429, or no response), `uploadMedia` performs exactly
`retries + 1` attempts, sleeping the scheduled backoff delays
(2s, 5s, 10s, then the last value repeated), and then raises a fatal
error. -/
theorem upload_retry_exhaustion :
    ∀ (outcome : Nat → AttemptOutcome) (bufLen : Nat) (filename : String) (retries : Nat),
      (∀ i, i ≤ retries → isRetryableOutcome (outcome i) = true) →
      (∃ e, (uploadMediaModel outcome bufLen filename retries).1 = .error e)
      ∧ (uploadMediaModel outcome bufLen filename retries).2
          = ⟨retries + 1, (List.range retries).map delayFor⟩ := by
  intro outcome bufLen filename retries hr
  obtain ⟨le, heq⟩ := uploadGo_skip outcome bufLen filename retries retries 0 none ⟨0, []⟩
    (by omega) (fun i h1 h2 => hr i (by omega))
  simp only [Nat.zero_add, List.nil_append, Nat.sub_zero] at heq
  obtain ⟨e, hfin⟩ := uploadGo_final_retryable outcome bufLen filename retries le
    ⟨retries, (List.range' 0 retries).map delayFor⟩ (hr retries (Nat.le_refl _))
  have h1 : retries + 1 - retries = 1 := by omega
  rw [h1] at heq
  have hfull : uploadMediaModel outcome bufLen filename retries
      = (.error e, ⟨retries + 1, (List.range' 0 retries).map delayFor⟩) := by
    unfold uploadMediaModel
    rw [heq, hfin]
  rw [hfull, List.range_eq_range']
  exact ⟨⟨e, rfl⟩, rfl⟩

/-- Concrete instantiation of `upload_retry_exhaustion`: five retries of a
permanently rate-limited upload sleep 2s, 5s, 10s, 10s, 10s. -/
theorem upload_retry_exhaustion_witness :
    (uploadMediaModel (fun _ => .fail ⟨some 429⟩) 9 "w.jpg" 5).2
      = ⟨5 + 1, (List.range 5).map delayFor⟩ :=
  (upload_retry_exhaustion (fun _ => .fail ⟨some 429⟩) 9 "w.jpg" 5
    (fun _ _ => rfl)).2

/-- C5 (counterexample): a permanently rate-limited (429) upload exhausts
its retries and rethrows the *bare* underlying error — not a descriptive
message with the file size and attempt count (only the 503 path builds
one). -/
theorem upload_429_exhaustion_bare_error_cex :
    uploadMediaModel (fun _ => .fail ⟨some 429⟩) 1048576 "photo.jpg" 3
      = (.error (.raw ⟨some 429⟩), ⟨4, [2000, 5000, 10000]⟩) := by decide

/-- C5 (amended): when every attempt fails with 503 specifically, exhausting
the retries raises the descriptive fatal error, whose text contains the file
size (in MB) and the configured retry count. -/
theorem upload_503_exhaustion_descriptive_error :
    ∀ (outcome : Nat → AttemptOutcome) (bufLen : Nat) (filename : String) (retries : Nat),
      (∀ i, i ≤ retries → outcome i = .fail ⟨some 503⟩) →
      (uploadMediaModel outcome bufLen filename retries).1
          = .error (.msg (unavail503Msg filename bufLen retries))
      ∧ (fileSizeMB bufLen).data <:+: (unavail503Msg filename bufLen retries).data
      ∧ (toString retries).data <:+: (unavail503Msg filename bufLen retries).data := by
  intro outcome bufLen filename retries hr
  obtain ⟨le, heq⟩ := uploadGo_skip outcome bufLen filename retries retries 0 none ⟨0, []⟩
    (by omega) (fun i h1 h2 => by rw [hr i (by omega)]; decide)
  simp only [Nat.zero_add, List.nil_append, Nat.sub_zero] at heq
  have h1 : retries + 1 - retries = 1 := by omega
  rw [h1] at heq
  have hfin := uploadGo_final_503 outcome bufLen filename retries le
    ⟨retries, (List.range' 0 retries).map delayFor⟩ (hr retries (Nat.le_refl _))
  refine ⟨?_, ?_, ?_⟩
  · show (uploadGo outcome bufLen filename retries 0 (retries + 1) none ⟨0, []⟩).1 = _
    rw [heq, hfin]
  · refine ⟨("WordPress server returned 503 Service Unavailable while uploading \"").data
        ++ filename.data ++ ("\" (" : String).data,
      ("MB) after " : String).data ++ (toString retries).data
        ++ (" retries. The server may be overloaded or have timeout issues." : String).data, ?_⟩
    unfold unavail503Msg
    rw [String_data_append, String_data_append, String_data_append, String_data_append,
        String_data_append, String_data_append, ← List.append_assoc, ← List.append_assoc]
  · refine ⟨("WordPress server returned 503 Service Unavailable while uploading \"").data
        ++ filename.data ++ ("\" (" : String).data ++ (fileSizeMB bufLen).data
        ++ ("MB) after " : String).data,
      (" retries. The server may be overloaded or have timeout issues." : String).data, ?_⟩
    unfold unavail503Msg
    rw [String_data_append, String_data_append, String_data_append, String_data_append,
        String_data_append, String_data_append]

/-- Concrete instantiation of `upload_503_exhaustion_descriptive_error`:
a 1 MiB upload failing with 503 on all four attempts raises the message
naming "1.00" MB and 3 retries. -/
theorem upload_503_exhaustion_descriptive_error_witness :
    (uploadMediaModel (fun _ => .fail ⟨some 503⟩) 1048576 "photo.jpg" 3).1
      = .error (.msg (unavail503Msg "photo.jpg" 1048576 3)) :=
  (upload_503_exhaustion_descriptive_error (fun _ => .fail ⟨some 503⟩) 1048576 "photo.jpg" 3
    (fun _ _ => rfl)).1

/-- C6: an authentication (401) failure on any reached attempt — in
particular the first — aborts `uploadMedia` at once with the descriptive
auth error: the attempt counter stops at `k + 1` and only the delays of the
earlier retryable attempts were slept (none when `k = 0`). -/
theorem upload_auth_short_circuit :
    ∀ (outcome : Nat → AttemptOutcome) (bufLen : Nat) (filename : String) (retries k : Nat),
      k ≤ retries →
      (∀ i, i < k → isRetryableOutcome (outcome i) = true) →
      outcome k = .fail ⟨some 401⟩ →
      uploadMediaModel outcome bufLen filename retries
        = (.error (.msg authUploadMsg), ⟨k + 1, (List.range k).map delayFor⟩) := by
  intro outcome bufLen filename retries k hk hr h401
  obtain ⟨le, heq⟩ := uploadGo_skip outcome bufLen filename retries k 0 none ⟨0, []⟩
    (by omega) (fun i h1 h2 => hr i (by omega))
  simp only [Nat.zero_add, List.nil_append, Nat.sub_zero] at heq
  have hf : retries + 1 - k = (retries - k) + 1 := by omega
  rw [hf] at heq
  have hfin := uploadGo_401 outcome bufLen filename retries k (retries - k) le
    ⟨k, (List.range' 0 k).map delayFor⟩ h401
  unfold uploadMediaModel
  rw [heq, hfin, List.range_eq_range']

/-- Concrete instantiation of `upload_auth_short_circuit` at the first
attempt: one attempt, no delays. -/
theorem upload_auth_short_circuit_witness :
    uploadMediaModel (fun _ => .fail ⟨some 401⟩) 5 "a.jpg" 3
      = (.error (.msg authUploadMsg), ⟨0 + 1, (List.range 0).map delayFor⟩) :=
  upload_auth_short_circuit (fun _ => .fail ⟨some 401⟩) 5 "a.jpg" 3 0
    (by omega) (fun i hi => absurd hi (by omega)) rfl

/-! ## Orchestration (index.js: syncOnce, handler).

The collaborators (Drive listing/download, the WordPress client returned by
`createWp`, sharp resizing) are supplied as a `SyncEnv` of functions;
`Except` models thrown errors.  Every remote interaction is recorded in an
effect trace so that frame properties (what a dry run may touch) and
durability (what had already happened when a later stage failed) can be
stated. -/

structure Folder where
  id : String
  name : String
deriving DecidableEq

/-- A Drive file as used by `syncOnce`.  `modifiedTime` is the parsed
timestamp (`new Date(...)` modeled as epoch milliseconds); `description`
empty means absent (`f.description || ''`). -/
structure DriveFile where
  id : String
  name : String
  mimeType : String
  modifiedTime : Nat
  description : String
deriving DecidableEq

inductive Effect
  | loadMediaCache
  | listFolders
  | listImages (folderId : String)
  | findMedia (filename : String)
  | download (fileId : String)
  | upload (filename : String)
  | getPage (pageId : Nat)
  | patchPage (pageId : Nat)
deriving DecidableEq

/-- The destination/source interactions a dry run must not perform:
media upload, page patch, and Drive file download. -/
def Effect.isDryForbidden : Effect → Bool
  | .upload _ => true
  | .patchPage _ => true
  | .download _ => true
  | _ => false

/-- `page.content` as read by `syncOnce`:
`(page.content.raw || page.content.rendered) || ''`. -/
structure PageData where
  raw : String
  rendered : String
deriving DecidableEq

/-- `media.source_url || media.media_details?.sizes?.large?.source_url || ''`. -/
def foundUrl (m : FoundMedia) : String :=
  if m.source_url = "" then m.largeUrl else m.source_url

structure SyncEnv where
  loadMediaCache : Except String Unit
  listFolders : Except String (List Folder)
  listImages : String → Except String (List DriveFile)
  findMedia : String → Except String (Option FoundMedia)
  download : String → Except String (List Nat)
  resize : List Nat → Nat → List Nat
  upload : List Nat → String → String → String → Except String FoundMedia
  getPage : Nat → Except String PageData
  patchPage : Nat → String → Except String Unit

structure SyncArgs where
  driveFolderId : String
  wpPageId : Nat
  order : String
  dryRun : Bool
  clearContent : Bool
  refreshCache : Bool
  maxSize : Nat
  uploadLimit : Int
  wpBaseUrl : String
  wpUser : String
  wpPass : String
deriving DecidableEq

/-- Stable insertion sort with a boolean `le`, modelling the (stable) JS
`Array.prototype.sort`. -/
def insertSorted {α : Type} (le : α → α → Bool) (a : α) : List α → List α
  | [] => [a]
  | b :: bs => if le a b then a :: b :: bs else b :: insertSorted le a bs

def sortByLe {α : Type} (le : α → α → Bool) : List α → List α
  | [] => []
  | a :: as => insertSorted le a (sortByLe le as)

/-- `pickOrder(order)` from index.js (`localeCompare` modelled as code-point
order, date comparison as numeric timestamps; unknown orders default to
`name_asc`). -/
def fileLe (order : String) (a b : DriveFile) : Bool :=
  match order with
  | "name_desc" => decide (b.name ≤ a.name)
  | "modified_desc" => decide (b.modifiedTime ≤ a.modifiedTime)
  | "modified_asc" => decide (a.modifiedTime ≤ b.modifiedTime)
  | _ => decide (a.name ≤ b.name)

/-- Accumulator of the per-file loop: the current folder's attachments and
the run-wide upload/reuse bookkeeping. -/
structure FileAcc where
  attachments : List Attachment
  toUpload : List (String × String)
  reused : List (String × String)
  totalUploaded : Nat
deriving DecidableEq

/-- One iteration of the inner file loop of `syncOnce` (lines 539–573):
resolve; on a hit record a reused attachment; on a miss honour the upload
limit, the dry-run skip, or download+resize+upload. -/
def processFile (env : SyncEnv) (args : SyncArgs) (folderName : String) (f : DriveFile)
    (acc : FileAcc) : Except String FileAcc × List Effect :=
  let filename := if f.name = "" then f.id ++ ".jpg" else f.name
  let alt := stripExt filename
  match env.findMedia filename with
  | .error e => (.error e, [.findMedia filename])
  | .ok (some existing) =>
    (.ok { acc with
        attachments := acc.attachments ++ [⟨existing.id, foundUrl existing, alt⟩]
        reused := acc.reused ++ [(folderName, filename)] },
     [.findMedia filename])
  | .ok none =>
    if args.uploadLimit > 0 ∧ args.uploadLimit ≤ (acc.totalUploaded : Int) then
      (.ok acc, [.findMedia filename])
    else if args.dryRun then
      (.ok { acc with
          toUpload := acc.toUpload ++ [(folderName, filename)]
          totalUploaded := acc.totalUploaded + 1 },
       [.findMedia filename])
    else
      match env.download f.id with
      | .error e => (.error e, [.findMedia filename, .download f.id])
      | .ok buf =>
        match env.upload (env.resize buf args.maxSize) filename f.description alt with
        | .error e => (.error e, [.findMedia filename, .download f.id, .upload filename])
        | .ok media =>
          (.ok { acc with
              attachments := acc.attachments ++ [⟨media.id, foundUrl media, alt⟩]
              toUpload := acc.toUpload ++ [(folderName, filename)]
              totalUploaded := acc.totalUploaded + 1 },
           [.findMedia filename, .download f.id, .upload filename])


def processFiles (env : SyncEnv) (args : SyncArgs) (folderName : String) :
    List DriveFile → FileAcc → Except String FileAcc × List Effect
  | [], acc => (.ok acc, [])
  | f :: fs, acc =>
    let step := processFile env args folderName f acc
    match step.1 with
    | .error e => (.error e, step.2)
    | .ok acc2 =>
      let rest := processFiles env args folderName fs acc2
      (rest.1, step.2 ++ rest.2)

structure FolderAcc where
  sections : List GallerySection
  toUpload : List (String × String)
  reused : List (String × String)
  totalUploaded : Nat
deriving DecidableEq

/-- One iteration of the folder loop (lines 532–578): list the folder's
images (image mime types only), sort them per the configured order, run the
file loop, and keep the section when it gathered any attachments. -/
def processFolder (env : SyncEnv) (args : SyncArgs) (folder : Folder) (acc : FolderAcc) :
    Except String FolderAcc × List Effect :=
  match env.listImages folder.id with
  | .error e => (.error e, [.listImages folder.id])
  | .ok files0 =>
    let files := sortByLe (fileLe args.order)
      (files0.filter (fun f => startsWithChars "image/".data f.mimeType.data))
    let pr := processFiles env args folder.name files
      ⟨[], acc.toUpload, acc.reused, acc.totalUploaded⟩
    match pr.1 with
    | .error e => (.error e, .listImages folder.id :: pr.2)
    | .ok fa =>
      (.ok ⟨acc.sections ++
            (if fa.attachments.length > 0 then [⟨folder.name, fa.attachments⟩] else []),
            fa.toUpload, fa.reused, fa.totalUploaded⟩,
       .listImages folder.id :: pr.2)

def processFolders (env : SyncEnv) (args : SyncArgs) :
    List Folder → FolderAcc → Except String FolderAcc × List Effect
  | [], acc => (.ok acc, [])
  | fo :: fos, acc =>
    let step := processFolder env args fo acc
    match step.1 with
    | .error e => (.error e, step.2)
    | .ok acc2 =>
      let rest := processFolders env args fos acc2
      (rest.1, step.2 ++ rest.2)

/-- The aggregate result object returned by `syncOnce` (lines 616–628). -/
structure SyncResult where
  uploadedCount : Nat
  reusedCount : Nat
  totalIdsInGallery : Nat
  sectionsCount : Nat
  sectionSummaries : List (String × Nat)
  pageId : Nat
  updated : Bool
  toUpload : List (String × String)
  reused : List (String × String)
deriving DecidableEq

def mkSyncResult (args : SyncArgs) (acc : FolderAcc) : SyncResult :=
  { uploadedCount := acc.toUpload.length
    reusedCount := acc.reused.length
    totalIdsInGallery := (acc.sections.map (fun s => s.attachments.length)).sum
    sectionsCount := acc.sections.length
    sectionSummaries := acc.sections.map (fun s => (s.name, s.attachments.length))
    pageId := args.wpPageId
    updated := !args.dryRun
    toUpload := acc.toUpload
    reused := acc.reused }

/-- `syncOnce(opts)` from index.js: argument guards, cache load, folder
listing (sorted by name), the folder/file loops, and — unless dry-running —
the page read, content merge and page patch. -/
def syncOnceModel (env : SyncEnv) (args : SyncArgs) :
    Except String SyncResult × List Effect :=
  if args.driveFolderId = "" then (.error "driveFolderId required", [])
  else if args.wpPageId = 0 then (.error "wpPageId required", [])
  else if args.wpBaseUrl = "" ∨ args.wpUser = "" ∨ args.wpPass = "" then
    (.error "WP credentials/baseUrl required", [])
  else
    match env.loadMediaCache with
    | .error e => (.error e, [.loadMediaCache])
    | .ok _ =>
      match env.listFolders with
      | .error e => (.error e, [.loadMediaCache, .listFolders])
      | .ok folders0 =>
        let subFolders := sortByLe (fun a b => decide (a.name ≤ b.name)) folders0
        let pr := processFolders env args subFolders ⟨[], [], [], 0⟩
        match pr.1 with
        | .error e => (.error e, .loadMediaCache :: .listFolders :: pr.2)
        | .ok acc =>
          if args.dryRun then
            (.ok (mkSyncResult args acc), .loadMediaCache :: .listFolders :: pr.2)
          else
            match env.getPage args.wpPageId with
            | .error e =>
              (.error e, .loadMediaCache :: .listFolders :: (pr.2 ++ [.getPage args.wpPageId]))
            | .ok page =>
              let prevContent := if page.raw = "" then page.rendered else page.raw
              let newContent :=
                mergePageContent prevContent (makePageContent acc.sections) args.clearContent
              match env.patchPage args.wpPageId newContent with
              | .error e =>
                (.error e, .loadMediaCache :: .listFolders ::
                  (pr.2 ++ [.getPage args.wpPageId, .patchPage args.wpPageId]))
              | .ok _ =>
                (.ok (mkSyncResult args acc), .loadMediaCache :: .listFolders ::
                  (pr.2 ++ [.getPage args.wpPageId, .patchPage args.wpPageId]))

/-! ### The Lambda handler's response envelope (index.js lines 666–678).
`JSON.stringify` is modelled assuming the strings involved need no JSON
escaping (true of every message the code builds). -/

def jsonStr (s : String) : String := "\"" ++ s ++ "\""

def sectionJson (p : String × Nat) : String :=
  "\x7b\"name\":" ++ jsonStr p.1 ++ ",\"imageCount\":" ++ toString p.2 ++ "\x7d"

def fileRefJson (p : String × String) : String :=
  "\x7b\"folder\":" ++ jsonStr p.1 ++ ",\"filename\":" ++ jsonStr p.2 ++ "\x7d"

def arrJson (xs : List String) : String := "[" ++ String.intercalate "," xs ++ "]"

def boolJson (b : Bool) : String := if b then "true" else "false"

def resultJson (r : SyncResult) : String :=
  "\x7b\"uploadedCount\":" ++ toString r.uploadedCount ++
  ",\"reusedCount\":" ++ toString r.reusedCount ++
  ",\"totalIdsInGallery\":" ++ toString r.totalIdsInGallery ++
  ",\"sectionsCount\":" ++ toString r.sectionsCount ++
  ",\"sections\":" ++ arrJson (r.sectionSummaries.map sectionJson) ++
  ",\"pageId\":" ++ toString r.pageId ++
  ",\"updated\":" ++ boolJson r.updated ++
  ",\"images\":\x7b\"toUpload\":" ++ arrJson (r.toUpload.map fileRefJson) ++
  ",\"reused\":" ++ arrJson (r.reused.map fileRefJson) ++ "\x7d\x7d"

structure LambdaResponse where
  statusCode : Nat
  body : String
deriving DecidableEq

/-- The handler: 200 with `{ok:true,result}` on success, 500 with
`{ok:false,error}` on any thrown error. -/
def handlerModel (env : SyncEnv) (args : SyncArgs) : LambdaResponse :=
  match (syncOnceModel env args).1 with
  | .ok r => ⟨200, "\x7b\"ok\":true,\"result\":" ++ resultJson r ++ "\x7d"⟩
  | .error e => ⟨500, "\x7b\"ok\":false,\"error\":" ++ jsonStr e ++ "\x7d"⟩

/-! ## Failure reporting (C3) -/

/-- A run in which the upload stage succeeds and the final page patch
fails. -/
def envC3 : SyncEnv :=
  { loadMediaCache := .ok ()
    listFolders := .ok [⟨"fid1", "Trip"⟩]
    listImages := fun _ => .ok [⟨"file1", "sunset.jpg", "image/jpeg", 0, ""⟩]
    findMedia := fun _ => .ok none
    download := fun _ => .ok [1, 2, 3]
    resize := fun b _ => b
    upload := fun _ _ _ _ => .ok ⟨77, "https://wp.example/sunset.jpg", ""⟩
    getPage := fun _ => .ok ⟨"", ""⟩
    patchPage := fun _ _ => .error "Request failed with status code 500" }

def argsC3 : SyncArgs :=
  ⟨"folder", 12, "name_asc", false, false, false, 1024, 0, "https://wp.example", "admin", "pw"⟩

/-- C3 (counterexample): when the page patch fails after a file has already
been uploaded, the handler's failure response is a bare
`{ok:false,error:…}`: it does not include the aggregate result
(uploaded/reused counts), even though the upload had taken effect. -/
theorem handler_failure_lacks_counts_cex :
    (handlerModel envC3 argsC3).statusCode = 500
    ∧ Effect.upload "sunset.jpg" ∈ (syncOnceModel envC3 argsC3).2
    ∧ ¬ ("uploadedCount".data <:+: (handlerModel envC3 argsC3).body.data) := by
  refine ⟨?_, ?_, ?_⟩ <;> decide

/-- C3 (amended): whenever `syncOnce` aborts with an error — regardless of
how many earlier stages already took effect — the handler reports only the
error message in a 500 response; the aggregate result is not part of the
failure report. -/
theorem handler_failure_reports_only_message :
    ∀ (env : SyncEnv) (args : SyncArgs) (e : String) (effs : List Effect),
      syncOnceModel env args = (.error e, effs) →
      handlerModel env args
        = ⟨500, "\x7b\"ok\":false,\"error\":" ++ jsonStr e ++ "\x7d"⟩ := by
  intro env args e effs h
  unfold handlerModel
  rw [h]

/-- Concrete instantiation of `handler_failure_reports_only_message` on the
partially-succeeded run `envC3`. -/
theorem handler_failure_reports_only_message_witness :
    handlerModel envC3 argsC3
      = ⟨500, "\x7b\"ok\":false,\"error\":"
          ++ jsonStr "Request failed with status code 500" ++ "\x7d"⟩ :=
  handler_failure_reports_only_message envC3 argsC3
    "Request failed with status code 500"
    [.loadMediaCache, .listFolders, .listImages "fid1", .findMedia "sunset.jpg",
     .download "file1", .upload "sunset.jpg", .getPage 12, .patchPage 12]
    (by decide)

/-! ## Dry-run frame property (C10) -/

/-- What a dry run's returned result must look like: `updated` is false and
the counts agree with the reported would-be upload/reuse lists.  (An
error outcome returns no result, so there is nothing to check.) -/
def dryOkResult : Except String SyncResult → Bool
  | .error _ => true
  | .ok r => !r.updated && (r.uploadedCount == r.toUpload.length)
      && (r.reusedCount == r.reused.length)

theorem processFile_dry (env : SyncEnv) (args : SyncArgs) (folderName : String)
    (f : DriveFile) (acc : FileAcc) (h : args.dryRun = true) :
    ((processFile env args folderName f acc).2.all (fun e => !e.isDryForbidden)) = true := by
  simp only [processFile, h]
  split
  · simp [Effect.isDryForbidden]
  · simp [Effect.isDryForbidden]
  · split
    · simp [Effect.isDryForbidden]
    · simp [Effect.isDryForbidden]

theorem processFiles_dry (env : SyncEnv) (args : SyncArgs) (folderName : String)
    (h : args.dryRun = true) :
    ∀ (files : List DriveFile) (acc : FileAcc),
      ((processFiles env args folderName files acc).2.all (fun e => !e.isDryForbidden)) = true := by
  intro files
  induction files with
  | nil => intro acc; rfl
  | cons f fs ih =>
    intro acc
    have hone := processFile_dry env args folderName f acc h
    simp only [processFiles]
    cases hs : (processFile env args folderName f acc).1 with
    | error e => simpa using hone
    | ok acc2 =>
      have hrest := ih acc2
      simp only [List.all_append, Bool.and_eq_true]
      exact ⟨by simpa using hone, by simpa using hrest⟩

theorem processFolder_effects (env : SyncEnv) (args : SyncArgs) (folder : Folder)
    (acc : FolderAcc) :
    (processFolder env args folder acc).2 = [.listImages folder.id]
    ∨ ∃ files acc0, (processFolder env args folder acc).2
        = .listImages folder.id :: (processFiles env args folder.name files acc0).2 := by
  simp only [processFolder]
  split
  · exact .inl rfl
  · split
    · exact .inr ⟨_, _, rfl⟩
    · exact .inr ⟨_, _, rfl⟩

theorem processFolder_dry (env : SyncEnv) (args : SyncArgs) (folder : Folder)
    (acc : FolderAcc) (h : args.dryRun = true) :
    ((processFolder env args folder acc).2.all (fun e => !e.isDryForbidden)) = true := by
  rcases processFolder_effects env args folder acc with heq | ⟨files, acc0, heq⟩
  · rw [heq]
    simp [Effect.isDryForbidden]
  · rw [heq]
    simp only [List.all_cons, Bool.and_eq_true]
    exact ⟨by simp [Effect.isDryForbidden],
      by simpa using processFiles_dry env args folder.name h files acc0⟩

theorem processFolders_dry (env : SyncEnv) (args : SyncArgs) (h : args.dryRun = true) :
    ∀ (folders : List Folder) (acc : FolderAcc),
      ((processFolders env args folders acc).2.all (fun e => !e.isDryForbidden)) = true := by
  intro folders
  induction folders with
  | nil => intro acc; rfl
  | cons fo fos ih =>
    intro acc
    have hone := processFolder_dry env args fo acc h
    simp only [processFolders]
    cases hs : (processFolder env args fo acc).1 with
    | error e => simpa using hone
    | ok acc2 =>
      have hrest := ih acc2
      simp only [List.all_append, Bool.and_eq_true]
      exact ⟨by simpa using hone, by simpa using hrest⟩

/-- With `dryRun = true` the effect trace of `syncOnce` is one of: nothing
(argument guard), the cache load, cache load + folder listing, or those two
followed by the folder-loop effects — never the page read/patch path. -/
theorem syncOnce_dry_shape (env : SyncEnv) (args : SyncArgs) (h : args.dryRun = true) :
    (syncOnceModel env args).2 = []
    ∨ (syncOnceModel env args).2 = [.loadMediaCache]
    ∨ (syncOnceModel env args).2 = [.loadMediaCache, .listFolders]
    ∨ ∃ folders acc0, (syncOnceModel env args).2
        = .loadMediaCache :: .listFolders :: (processFolders env args folders acc0).2 := by
  simp only [syncOnceModel, h]
  split
  · exact .inl rfl
  · split
    · exact .inl rfl
    · split
      · exact .inl rfl
      · split
        · exact .inr (.inl rfl)
        · split
          · exact .inr (.inr (.inl rfl))
          · split
            · exact .inr (.inr (.inr ⟨_, _, rfl⟩))
            · simp only [if_true]
              exact .inr (.inr (.inr ⟨_, _, rfl⟩))

/-- With `dryRun = true` the outcome of `syncOnce` is an error or the
aggregate result built by `mkSyncResult`. -/
theorem syncOnce_dry_result (env : SyncEnv) (args : SyncArgs) (h : args.dryRun = true) :
    (∃ e, (syncOnceModel env args).1 = .error e)
    ∨ ∃ acc, (syncOnceModel env args).1 = .ok (mkSyncResult args acc) := by
  simp only [syncOnceModel, h]
  split
  · exact .inl ⟨_, rfl⟩
  · split
    · exact .inl ⟨_, rfl⟩
    · split
      · exact .inl ⟨_, rfl⟩
      · split
        · exact .inl ⟨_, rfl⟩
        · split
          · exact .inl ⟨_, rfl⟩
          · split
            · exact .inl ⟨_, rfl⟩
            · simp only [if_true]
              exact .inr ⟨_, rfl⟩

/-- C10: with `dryRun = true`, `syncOnce` never uploads media, never patches
the page and never downloads a Drive file (whatever the collaborators would
answer), and when it returns a result that result has `updated = false` with
`uploadedCount`/`reusedCount` equal to the lengths of the reported would-be
upload and reuse lists. -/
theorem sync_dry_run_frame :
    ∀ (env : SyncEnv) (args : SyncArgs), args.dryRun = true →
      ((syncOnceModel env args).2.all (fun e => !e.isDryForbidden)) = true
      ∧ dryOkResult (syncOnceModel env args).1 = true := by
  intro env args h
  constructor
  · rcases syncOnce_dry_shape env args h with h1 | h1 | h1 | ⟨folders, acc0, h1⟩ <;> rw [h1]
    · rfl
    · simp [Effect.isDryForbidden]
    · simp [Effect.isDryForbidden]
    · simp only [List.all_cons, Bool.and_eq_true]
      refine ⟨by simp [Effect.isDryForbidden], by simp [Effect.isDryForbidden], ?_⟩
      simpa using processFolders_dry env args h folders acc0
  · rcases syncOnce_dry_result env args h with ⟨e, h1⟩ | ⟨acc, h1⟩ <;> rw [h1]
    · rfl
    · simp [dryOkResult, mkSyncResult, h]

/-- Concrete instantiation of `sync_dry_run_frame`: a dry run over one
folder with one cached and one new image performs no forbidden effect and
reports consistent counts. -/
theorem sync_dry_run_frame_witness :
    ((syncOnceModel
        ⟨.ok (), .ok [⟨"fid1", "Trip"⟩],
         fun _ => .ok [⟨"f1", "beach.jpg", "image/jpeg", 0, ""⟩,
                       ⟨"f2", "sunset.jpg", "image/jpeg", 0, ""⟩],
         fun n => if n = "beach.jpg" then .ok (some ⟨5, "https://wp.example/beach.jpg", ""⟩)
                  else .ok none,
         fun _ => .ok [1], fun b _ => b,
         fun _ _ _ _ => .ok ⟨9, "u", ""⟩,
         fun _ => .ok ⟨"", ""⟩, fun _ _ => .ok ()⟩
        ⟨"folder", 12, "name_asc", true, false, false, 1024, 0,
         "https://wp.example", "admin", "pw"⟩).2.all (fun e => !e.isDryForbidden)) = true
    ∧ dryOkResult (syncOnceModel
        ⟨.ok (), .ok [⟨"fid1", "Trip"⟩],
         fun _ => .ok [⟨"f1", "beach.jpg", "image/jpeg", 0, ""⟩,
                       ⟨"f2", "sunset.jpg", "image/jpeg", 0, ""⟩],
         fun n => if n = "beach.jpg" then .ok (some ⟨5, "https://wp.example/beach.jpg", ""⟩)
                  else .ok none,
         fun _ => .ok [1], fun b _ => b,
         fun _ _ _ _ => .ok ⟨9, "u", ""⟩,
         fun _ => .ok ⟨"", ""⟩, fun _ _ => .ok ()⟩
        ⟨"folder", 12, "name_asc", true, false, false, 1024, 0,
         "https://wp.example", "admin", "pw"⟩).1 = true :=
  sync_dry_run_frame _ _ rfl
